import Mathlib

/-!
Shallow embedding of the event-aggregation engine of `file_monitor.py`
(classes `FileChangeEvent`, `IntelligentFileHandler`, `FileMonitor`).

Conventions of the embedding:
* timestamps are `Nat` "time units" (`datetime.now()` readings);
* the filesystem at a given instant is a pure map
  `String → Option (Nat × String)` giving size and content hash of a
  readable regular file (`none`: absent/unreadable, matching the code's
  fallbacks of size `0` and hash `""`);
* Python's insertion-ordered `dict` is an association list whose
  insert-or-replace keeps the original key position;
* path strings are handled by faithful models of `posixpath.normpath`,
  `posixpath.basename`, `pathlib.PurePath.suffix` and `fnmatch.fnmatch`
  (POSIX case-sensitive semantics), implemented below on `List Char`.
-/

namespace FileMonitorModel

/-- `strStarts needle hay`: `needle` is a prefix of `hay` (character lists). -/
def strStarts : List Char → List Char → Bool
  | [], _ => true
  | _ :: _, [] => false
  | c :: cs, d :: ds => c == d && strStarts cs ds

/-- `strContains hay needle`: Python's substring test `needle in hay`. -/
def strContains : List Char → List Char → Bool
  | [], needle => strStarts needle []
  | c :: t, needle => strStarts needle (c :: t) || strContains t needle

/-- Split a character list on `/`, like `path.split('/')`. -/
def splitSlash : List Char → List (List Char)
  | [] => [[]]
  | c :: t =>
    let rest := splitSlash t
    if c == '/' then [] :: rest
    else match rest with
      | [] => [[c]]
      | h :: r => (c :: h) :: r

/-- Join components with `/`, like `'/'.join(comps)`. -/
def joinSlash : List (List Char) → List Char
  | [] => []
  | [c] => c
  | c :: t => c ++ '/' :: joinSlash t

/-- Model of `posixpath.normpath`: drop empty and `.` components, resolve
`..` against preceding components, preserve one or exactly two leading
slashes, return `.` for an empty result. -/
def normpathL (p : List Char) : List Char :=
  if p = [] then ['.']
  else
    let slashes : Nat :=
      if strStarts ['/', '/'] p && !strStarts ['/', '/', '/'] p then 2
      else if strStarts ['/'] p then 1
      else 0
    let comps := splitSlash p
    let newComps := comps.foldl (fun acc comp =>
      if comp = [] || comp = ['.'] then acc
      else if comp ≠ ['.', '.'] || (slashes = 0 && acc = [])
              || (acc ≠ [] && acc.getLastD [] = ['.', '.']) then acc ++ [comp]
      else if acc ≠ [] then acc.dropLast
      else acc) []
    let joined := List.replicate slashes '/' ++ joinSlash newComps
    if joined = [] then ['.'] else joined

/-- `os.path.normpath` on strings (POSIX). -/
def normpath (p : String) : String := String.mk (normpathL p.data)

/-- Model of `posixpath.basename`: everything after the last `/`. -/
def basenameL (p : List Char) : List Char := (splitSlash p).getLastD []

/-- `os.path.basename` on strings (POSIX). -/
def basename (p : String) : String := String.mk (basenameL p.data)

/-- Index of the last `.` in a character list, like `name.rfind('.')`. -/
def lastDotIdx (l : List Char) : Option Nat :=
  ((l.enum.filter (fun x => x.2 == '.')).getLast?).map Prod.fst

/-- Model of `pathlib.PurePath(...).suffix`: the final extension of the
basename, empty when the last dot is at position 0 or at the very end. -/
def pathSuffix (p : String) : String :=
  let name := basenameL p.data
  match lastDotIdx name with
  | some i => if 0 < i && i < name.length - 1 then String.mk (name.drop i) else ""
  | none => ""

/-- Scan a bracket class body up to the closing `]`. -/
def takeUntilRB : List Char → Option (List Char × List Char)
  | [] => none
  | c :: t =>
    if c == ']' then some ([], t)
    else (takeUntilRB t).map (fun x => (c :: x.1, x.2))

/-- Does character `c` match the (already negation-stripped) content of a
bracket class, with `a-b` ranges and literal edge dashes. -/
def classMatch : List Char → Char → Bool
  | a :: '-' :: b :: rest, c =>
    (decide (a ≤ c) && decide (c ≤ b)) || classMatch rest c
  | a :: rest, c => a == c || classMatch rest c
  | [], _ => false

/-- Parse a bracket expression following `[`: returns (negated, content,
remaining pattern); `none` when the class is unterminated (then `[` is a
literal, as in `fnmatch.translate`). A `]` right after `[` or `[!`
is literal content. -/
def parseBracket (ps : List Char) : Option (Bool × List Char × List Char) :=
  let (neg, ps₁) := match ps with
    | '!' :: t => (true, t)
    | _ => (false, ps)
  match ps₁ with
  | ']' :: t => (takeUntilRB t).map (fun x => (neg, ']' :: x.1, x.2))
  | _ => (takeUntilRB ps₁).map (fun x => (neg, x.1, x.2))

/-- Fuelled core of `fnmatch`: `*` matches any run, `?` one character,
bracket classes as parsed above, other characters literally. Every
recursive call shrinks pattern length + string length, so fuel
`|pat| + |s| + 1` is always sufficient. -/
def globMatchAux : Nat → List Char → List Char → Bool
  | 0, _, _ => false
  | _ + 1, [], s => s.isEmpty
  | fuel + 1, '*' :: ps, s =>
    globMatchAux fuel ps s ||
      (match s with
       | [] => false
       | _ :: s₂ => globMatchAux fuel ('*' :: ps) s₂)
  | fuel + 1, '?' :: ps, s =>
    (match s with
     | [] => false
     | _ :: s₂ => globMatchAux fuel ps s₂)
  | fuel + 1, '[' :: ps, s =>
    (match parseBracket ps with
     | some x =>
       (match s with
        | [] => false
        | c :: s₂ => (x.1 != classMatch x.2.1 c) && globMatchAux fuel x.2.2 s₂)
     | none =>
       (match s with
        | [] => false
        | c :: s₂ => (c == '[') && globMatchAux fuel ps s₂))
  | fuel + 1, c :: ps, s =>
    (match s with
     | [] => false
     | d :: s₂ => (c == d) && globMatchAux fuel ps s₂)

/-- Model of `fnmatch.fnmatch(name, pat)` under POSIX (identity normcase). -/
def fnmatch (name pat : String) : Bool :=
  globMatchAux (pat.data.length + name.data.length + 1) pat.data name.data

/-- The configuration fields `should_ignore_file` reads:
`monitoring.exclude_directories`, `monitoring.file_extensions`,
`git.ignore_patterns` (each defaulting to `[]` when missing — the
default-on-missing is folded into the record). -/
structure Config where
  exclude_directories : List String
  file_extensions : List String
  ignore_patterns : List String
deriving DecidableEq

/-- The handler's built-in temporary/system-file patterns. -/
def temp_patterns : List String :=
  ["*.tmp", "*.temp", "*.swp", "*.swo", "*~", ".DS_Store"]

/-- `IntelligentFileHandler.should_ignore_file`: normalize the path, then
ignore when an excluded directory name occurs as a substring, or a
non-empty extension allow-list lacks the path's suffix, or an ignore glob
matches basename or full path, or a built-in temp pattern matches the
basename. -/
def should_ignore_file (cfg : Config) (path : String) : Bool :=
  let fp := normpath path
  if cfg.exclude_directories.any (fun d => strContains fp.data d.data) then true
  else if !cfg.file_extensions.isEmpty
          && !cfg.file_extensions.contains (pathSuffix fp) then true
  else
    let name := basename fp
    if cfg.ignore_patterns.any (fun pat => fnmatch name pat || fnmatch fp pat) then
      true
    else temp_patterns.any (fun pat => fnmatch name pat)

/-- The four `event_type` strings of `FileChangeEvent`. -/
inductive EventType where
  | created
  | modified
  | deleted
  | moved
deriving DecidableEq

/-- A filesystem snapshot: size and content hash of each readable regular
file, `none` for absent/unreadable paths. -/
def FSModel : Type := String → Option (Nat × String)

/-- `FileChangeEvent.__init__`: size and hash are read eagerly from the
filesystem at construction (`_get_file_size` falls back to `0`,
`_get_file_hash` to `""`). -/
structure FileChangeEvent where
  file_path : String
  event_type : EventType
  timestamp : Nat
  file_size : Nat
  file_hash : String
deriving DecidableEq

/-- Construct a `FileChangeEvent` at time `now` against snapshot `fs`. -/
def mkFileChangeEvent (fs : FSModel) (path : String) (ty : EventType)
    (now : Nat) : FileChangeEvent :=
  { file_path := path
    event_type := ty
    timestamp := now
    file_size := match fs path with | some x => x.1 | none => 0
    file_hash := match fs path with | some x => x.2 | none => "" }

/-- A raw watchdog `FileSystemEvent`: source path, directory flag, and the
destination path when the event object has a `dest_path` attribute. -/
structure FileSystemEvent where
  src_path : String
  is_directory : Bool
  dest_path : Option String
deriving DecidableEq

/-- Insert-or-replace in an insertion-ordered dict (`d[k] = v`): a present
key keeps its position, a new key goes to the end. -/
def dictInsert {α : Type} : List (String × α) → String → α → List (String × α)
  | [], k, v => [(k, v)]
  | (k₂, v₂) :: rest, k, v =>
    if k₂ = k then (k, v) :: rest else (k₂, v₂) :: dictInsert rest k v

/-- Dict lookup (`d.get(k)` / `k in d`). -/
def dictLookup {α : Type} : List (String × α) → String → Option α
  | [], _ => none
  | (k₂, v₂) :: rest, k => if k₂ = k then some v₂ else dictLookup rest k

/-- The handler's debounce state: `recent_events`, path → pending event. -/
structure HandlerState where
  recent_events : List (String × FileChangeEvent)
deriving DecidableEq

/-- `IntelligentFileHandler.on_modified`: skip directories and ignored
paths; when the path is already pending with the same content hash, drop
the notification (state unchanged); otherwise record the new event. -/
def on_modified (cfg : Config) (fs : FSModel) (st : HandlerState)
    (event : FileSystemEvent) (now : Nat) : HandlerState :=
  if event.is_directory then st
  else if should_ignore_file cfg event.src_path then st
  else
    let file_path := normpath event.src_path
    let current_event := mkFileChangeEvent fs file_path .modified now
    match dictLookup st.recent_events file_path with
    | some previous_event =>
      if current_event.file_hash = previous_event.file_hash then st
      else ⟨dictInsert st.recent_events file_path current_event⟩
    | none => ⟨dictInsert st.recent_events file_path current_event⟩

/-- `IntelligentFileHandler.on_created`: skip directories and ignored
paths; otherwise unconditionally record a `created` event. -/
def on_created (cfg : Config) (fs : FSModel) (st : HandlerState)
    (event : FileSystemEvent) (now : Nat) : HandlerState :=
  if event.is_directory then st
  else if should_ignore_file cfg event.src_path then st
  else
    let file_path := normpath event.src_path
    ⟨dictInsert st.recent_events file_path
      (mkFileChangeEvent fs file_path .created now)⟩

/-- `IntelligentFileHandler.on_deleted`: skip directories and ignored
paths; otherwise unconditionally record a `deleted` event. -/
def on_deleted (cfg : Config) (fs : FSModel) (st : HandlerState)
    (event : FileSystemEvent) (now : Nat) : HandlerState :=
  if event.is_directory then st
  else if should_ignore_file cfg event.src_path then st
  else
    let file_path := normpath event.src_path
    ⟨dictInsert st.recent_events file_path
      (mkFileChangeEvent fs file_path .deleted now)⟩

/-- `IntelligentFileHandler.on_moved`: skip directories; do nothing when
the event has no `dest_path`; otherwise, when the destination is not
ignored, record a `moved` event keyed by the destination path. The source
path is never touched. -/
def on_moved (cfg : Config) (fs : FSModel) (st : HandlerState)
    (event : FileSystemEvent) (now : Nat) : HandlerState :=
  if event.is_directory then st
  else
    match event.dest_path with
    | none => st
    | some dp =>
      if should_ignore_file cfg dp then st
      else
        let dest_path := normpath dp
        ⟨dictInsert st.recent_events dest_path
          (mkFileChangeEvent fs dest_path .moved now)⟩

/-- The handler's fixed `debounce_interval` (2.0 seconds). -/
def debounce_interval : Nat := 2

/-- One pass of the cleanup thread's loop body at time `now`: entries older
than `interval` are removed from `recent_events` (in dict order) and
returned as the settled events handed to `FileMonitor._process_file_change`. -/
def cleanupExpired (interval : Nat) (now : Nat) (st : HandlerState) :
    HandlerState × List FileChangeEvent :=
  (⟨st.recent_events.filter (fun x => !(interval < now - x.2.timestamp))⟩,
   (st.recent_events.filter (fun x => interval < now - x.2.timestamp)).map Prod.snd)

/-- Insert-or-replace keyed by `file_path` (one step of building
`unique_changes` in `_process_change_batch`): dict semantics, the first
entry with the same path is replaced in place, a new path is appended. -/
def dedupInsert : List FileChangeEvent → FileChangeEvent → List FileChangeEvent
  | [], r => [r]
  | x :: xs, r =>
    if x.file_path = r.file_path then r :: xs else x :: dedupInsert xs r

/-- `unique_changes` of `_process_change_batch`: fold the batch into a dict
keyed by path (latest wins), read out the values in insertion order. -/
def dedupByPath (changes : List FileChangeEvent) : List FileChangeEvent :=
  changes.foldl dedupInsert []

/-- The timestamp order used by `final_changes.sort(key=lambda x: x.timestamp)`. -/
def tsLE (a b : FileChangeEvent) : Prop := a.timestamp ≤ b.timestamp

instance : DecidableRel tsLE := fun a b => Nat.decLe a.timestamp b.timestamp

instance : IsTotal FileChangeEvent tsLE := ⟨fun a b => Nat.le_total a.timestamp b.timestamp⟩

instance : IsTrans FileChangeEvent tsLE := ⟨fun _ _ _ h₂ h₃ => Nat.le_trans h₂ h₃⟩

/-- The pure part of `_process_change_batch`: deduplicate by path keeping
the latest record, then stable-sort by timestamp (Python's `list.sort` is
stable; `List.insertionSort` with `≤` on the key is the same stable sort). -/
def processChangeBatchPure (changes : List FileChangeEvent) : List FileChangeEvent :=
  List.insertionSort tsLE (dedupByPath changes)

/-- A registered subscriber callback; a Python exception is an `Except.error`. -/
def Subscriber : Type := List FileChangeEvent → Except String Unit

/-- The delivery loop of `_process_change_batch`: each callback is invoked
once, in list order, on the same batch; an error is caught (recorded as
that callback's result) and the loop continues with the next callback. -/
def runCallbacks (batch : List FileChangeEvent) :
    List Subscriber → List (Except String Unit)
  | [] => []
  | cb :: rest => cb batch :: runCallbacks batch rest

/-- `FileMonitor._process_change_batch`: empty batches return immediately
without touching any callback; otherwise dedup + sort, then deliver to
every callback in registration order. Returns the per-callback results. -/
def process_change_batch (callbacks : List Subscriber)
    (changes : List FileChangeEvent) : List (Except String Unit) :=
  if changes.isEmpty then []
  else runCallbacks (processChangeBatchPure changes) callbacks

/-- The mutable counters of `FileMonitor.stats` (besides `start_time`). -/
structure Stats where
  total_events : Nat
  ignored_events : Nat
  processed_batches : Nat
deriving DecidableEq

/-- The monitor-side mutable state: the handler's `recent_events`, the
batcher's `pending_changes` accumulation, `last_batch_time`, the stats
counters, and the ordered log of batches handed to `_process_change_batch`
(each already deduplicated and sorted, as the callbacks receive it). -/
structure MonitorState where
  recent_events : List (String × FileChangeEvent)
  pending_changes : List FileChangeEvent
  last_batch_time : Nat
  stats : Stats
  delivered : List (List FileChangeEvent)
deriving DecidableEq

/-- `FileMonitor.__init__` state (counters zero, empty buffers) at time `t₀`. -/
def initialMonitorState (t₀ : Nat) : MonitorState :=
  ⟨[], [], t₀, ⟨0, 0, 0⟩, []⟩

/-- `FileMonitor._trigger_batch_processing`: a no-op on an empty
accumulation; otherwise copy-and-clear `pending_changes`, stamp
`last_batch_time`, bump `processed_batches`, and submit the copied batch to
`_process_change_batch` (recorded in `delivered` in submission order; the
executor preserves this order and `shutdown(wait=True)` completes it). -/
def trigger_batch_processing (now : Nat) (st : MonitorState) : MonitorState :=
  if st.pending_changes.isEmpty then st
  else
    { st with
      pending_changes := []
      last_batch_time := now
      stats := { st.stats with processed_batches := st.stats.processed_batches + 1 }
      delivered := st.delivered ++ [processChangeBatchPure st.pending_changes] }

/-- `FileMonitor._process_file_change` (called once per settled event by the
cleanup thread): append the event, bump `total_events`, then flush when the
batch interval has elapsed since the last flush or at least 10 changes are
pending. -/
def process_file_change (batch_interval : Nat) (now : Nat)
    (st : MonitorState) (event : FileChangeEvent) : MonitorState :=
  let st₂ :=
    { st with
      pending_changes := st.pending_changes ++ [event]
      stats := { st.stats with total_events := st.stats.total_events + 1 } }
  if batch_interval ≤ now - st₂.last_batch_time ∨ 10 ≤ st₂.pending_changes.length
  then trigger_batch_processing now st₂
  else st₂

/-- One pass of the handler's cleanup loop seen at monitor level: settle
every expired entry of `recent_events` (dict order) through
`_process_file_change`. -/
def monitorCleanupStep (batch_interval : Nat) (now : Nat)
    (st : MonitorState) : MonitorState :=
  let split := cleanupExpired debounce_interval now ⟨st.recent_events⟩
  split.2.foldl (process_file_change batch_interval now)
    { st with recent_events := split.1.recent_events }

/-- The kind tag of a raw watchdog dispatch. -/
inductive RawKind where
  | created
  | modified
  | deleted
  | moved
deriving DecidableEq

/-- A raw notification arriving at the handler, seen at monitor level: only
`recent_events` can change; `stats` and the batcher state are untouched
(the handler methods never touch them). -/
def dispatchRaw (cfg : Config) (fs : FSModel) (kind : RawKind)
    (event : FileSystemEvent) (now : Nat) (st : MonitorState) : MonitorState :=
  let hs : HandlerState := ⟨st.recent_events⟩
  let hs₂ :=
    match kind with
    | .created => on_created cfg fs hs event now
    | .modified => on_modified cfg fs hs event now
    | .deleted => on_deleted cfg fs hs event now
    | .moved => on_moved cfg fs hs event now
  { st with recent_events := hs₂.recent_events }

/-- The state effect of `FileMonitor.stop_monitoring`: after stopping the
observer, flush the accumulation if non-empty (the submitted batch job
completes before return because `executor.shutdown(wait=True)` joins it).
The handler's `recent_events` is left untouched: nothing drains it. -/
def stop_monitoring (now : Nat) (st : MonitorState) : MonitorState :=
  if !st.pending_changes.isEmpty then trigger_batch_processing now st else st

/-- `FileMonitor.force_process_changes`: flush the accumulation if non-empty. -/
def force_process_changes (now : Nat) (st : MonitorState) : MonitorState :=
  if !st.pending_changes.isEmpty then trigger_batch_processing now st else st

/-- State of the watchdog `Observer`, which is a `threading.Thread`:
`started` is `Thread.start()` having been called, `stop_flag` is the
observer's stop event. -/
structure ObserverState where
  started : Bool
  stop_flag : Bool
deriving DecidableEq

/-- A fresh `Observer()` as built in `FileMonitor.__init__`. -/
def initialObserver : ObserverState := ⟨false, false⟩

/-- `threading.Thread.start` (documented behavior): raises `RuntimeError`
when called more than once on the same thread object. -/
def observer_start (o : ObserverState) : Except String ObserverState :=
  if o.started then Except.error "threads can only be started once"
  else Except.ok { o with started := true }

/-- `threading.Thread.join` (documented behavior): raises `RuntimeError`
when the thread has never been started. -/
def observer_join (o : ObserverState) : Except String Unit :=
  if !o.started then Except.error "cannot join thread before it is started"
  else Except.ok ()

/-- The lifecycle effect of `FileMonitor.start_monitoring`: schedule the
handler (no state in the model) and call `observer.start()`, with no guard
against the observer being already started. -/
def start_monitoring (o : ObserverState) : Except String ObserverState :=
  observer_start o

/-- The lifecycle effect of `FileMonitor.stop_monitoring` on the observer:
`observer.stop()` (sets the stop event) then `observer.join()`, with no
guard against the observer never having been started. -/
def stop_monitoring_lifecycle (o : ObserverState) : Except String ObserverState :=
  let o₂ := { o with stop_flag := true }
  match observer_join o₂ with
  | Except.ok _ => Except.ok o₂
  | Except.error e => Except.error e

/-- Lookup a record by path (first match), the batch-side analogue of dict
lookup on `unique_changes`. -/
def lookupPath : List FileChangeEvent → String → Option FileChangeEvent
  | [], _ => none
  | x :: xs, p => if x.file_path = p then some x else lookupPath xs p

/-- The last record of `changes` with path `p` (the record a later
occurrence of `p` overwrites earlier ones with). -/
def lastRecord (changes : List FileChangeEvent) (p : String) : Option FileChangeEvent :=
  changes.foldl (fun acc x => if x.file_path = p then some x else acc) none

theorem dictLookup_dictInsert {α : Type} (l : List (String × α)) (k : String)
    (v : α) (q : String) :
    dictLookup (dictInsert l k v) q = if k = q then some v else dictLookup l q := by
  induction l with
  | nil => simp [dictInsert, dictLookup]
  | cons x xs ih =>
    by_cases hx : x.1 = k
    · simp only [dictInsert, hx, if_pos rfl, dictLookup]
      by_cases hk : k = q
      · simp [hk]
      · simp [hk, dictLookup, fun h => hk (hx ▸ h : k = q)]
    · simp only [dictInsert, if_neg hx, dictLookup]
      by_cases hq : x.1 = q
      · have : ¬ k = q := fun h => hx (by rw [h, hq])
        simp [hq, this]
      · simp [hq, ih]

theorem lookupPath_dedupInsert (l : List FileChangeEvent) (r : FileChangeEvent)
    (p : String) :
    lookupPath (dedupInsert l r) p
      = if r.file_path = p then some r else lookupPath l p := by
  induction l with
  | nil => simp [dedupInsert, lookupPath]
  | cons x xs ih =>
    by_cases hx : x.file_path = r.file_path
    · simp only [dedupInsert, hx, if_pos rfl, lookupPath]
      by_cases hp : r.file_path = p
      · simp [hp]
      · simp [hp, lookupPath, fun h => hp (hx ▸ h : r.file_path = p)]
    · simp only [dedupInsert, if_neg hx, lookupPath]
      by_cases hq : x.file_path = p
      · have : ¬ r.file_path = p := fun h => hx (by rw [h, hq])
        simp [hq, this]
      · simp [hq, ih]

theorem dedupInsert_cons_eq {x r : FileChangeEvent} {xs : List FileChangeEvent}
    (h : x.file_path = r.file_path) : dedupInsert (x :: xs) r = r :: xs := by
  simp [dedupInsert, h]

theorem dedupInsert_cons_ne {x r : FileChangeEvent} {xs : List FileChangeEvent}
    (h : ¬ x.file_path = r.file_path) :
    dedupInsert (x :: xs) r = x :: dedupInsert xs r := by
  simp [dedupInsert, h]

theorem mem_paths_dedupInsert (l : List FileChangeEvent) (r : FileChangeEvent)
    (p : String) :
    p ∈ (dedupInsert l r).map FileChangeEvent.file_path
      ↔ p = r.file_path ∨ p ∈ l.map FileChangeEvent.file_path := by
  induction l with
  | nil => simp [dedupInsert]
  | cons x xs ih =>
    by_cases hx : x.file_path = r.file_path
    · rw [dedupInsert_cons_eq hx]
      simp only [List.map_cons, List.mem_cons]
      constructor
      · rintro (h | h)
        · exact Or.inl h
        · exact Or.inr (Or.inr h)
      · rintro (h | h | h)
        · exact Or.inl h
        · exact Or.inl (hx ▸ h)
        · exact Or.inr h
    · rw [dedupInsert_cons_ne hx]
      simp only [List.map_cons, List.mem_cons, ih]
      tauto

theorem paths_nodup_dedupInsert (l : List FileChangeEvent) (r : FileChangeEvent)
    (h : (l.map FileChangeEvent.file_path).Nodup) :
    ((dedupInsert l r).map FileChangeEvent.file_path).Nodup := by
  induction l with
  | nil => simp [dedupInsert]
  | cons x xs ih =>
    simp only [List.map_cons, List.nodup_cons] at h
    by_cases hx : x.file_path = r.file_path
    · rw [dedupInsert_cons_eq hx]
      simp only [List.map_cons, List.nodup_cons]
      exact ⟨hx ▸ h.1, h.2⟩
    · rw [dedupInsert_cons_ne hx]
      simp only [List.map_cons, List.nodup_cons]
      refine ⟨fun hc => ?_, ih h.2⟩
      rcases (mem_paths_dedupInsert xs r x.file_path).mp hc with h₂ | h₂
      · exact hx h₂
      · exact h.1 h₂

theorem lookupPath_foldl_dedupInsert (l : List FileChangeEvent)
    (acc : List FileChangeEvent) (p : String) :
    lookupPath (l.foldl dedupInsert acc) p
      = l.foldl (fun o x => if x.file_path = p then some x else o) (lookupPath acc p) := by
  induction l generalizing acc with
  | nil => rfl
  | cons r rest ih =>
    simp only [List.foldl_cons]
    rw [ih, lookupPath_dedupInsert]

theorem lookupPath_dedupByPath (changes : List FileChangeEvent) (p : String) :
    lookupPath (dedupByPath changes) p = lastRecord changes p := by
  unfold dedupByPath lastRecord
  rw [lookupPath_foldl_dedupInsert]
  rfl

theorem paths_nodup_dedupByPath (changes : List FileChangeEvent) :
    ((dedupByPath changes).map FileChangeEvent.file_path).Nodup := by
  suffices h : ∀ (l acc : List FileChangeEvent),
      (acc.map FileChangeEvent.file_path).Nodup →
      ((l.foldl dedupInsert acc).map FileChangeEvent.file_path).Nodup by
    exact h changes [] (by simp)
  intro l
  induction l with
  | nil => intro acc hacc; exact hacc
  | cons r rest ih =>
    intro acc hacc
    exact ih (dedupInsert acc r) (paths_nodup_dedupInsert acc r hacc)

theorem mem_paths_dedupByPath (changes : List FileChangeEvent) (p : String) :
    p ∈ (dedupByPath changes).map FileChangeEvent.file_path
      ↔ p ∈ changes.map FileChangeEvent.file_path := by
  suffices h : ∀ (l acc : List FileChangeEvent),
      p ∈ ((l.foldl dedupInsert acc).map FileChangeEvent.file_path)
        ↔ p ∈ acc.map FileChangeEvent.file_path
          ∨ p ∈ l.map FileChangeEvent.file_path by
    have := h changes []
    simpa [dedupByPath] using this
  intro l
  induction l with
  | nil => intro acc; simp
  | cons r rest ih =>
    intro acc
    simp only [List.foldl_cons, ih, mem_paths_dedupInsert, List.map_cons,
      List.mem_cons]
    tauto

theorem lookupPath_eq_some_of_mem {l : List FileChangeEvent}
    {r : FileChangeEvent} (hmem : r ∈ l)
    (hnd : (l.map FileChangeEvent.file_path).Nodup) :
    lookupPath l r.file_path = some r := by
  induction l with
  | nil => cases hmem
  | cons x xs ih =>
    simp only [List.map_cons, List.nodup_cons] at hnd
    rcases List.mem_cons.mp hmem with h | h
    · subst h
      simp [lookupPath]
    · have hx : ¬ x.file_path = r.file_path := by
        intro he
        exact hnd.1 (he ▸ List.mem_map_of_mem FileChangeEvent.file_path h)
      simp [lookupPath, hx, ih h hnd.2]

theorem lastRecord_mem {changes : List FileChangeEvent} {p : String}
    {r : FileChangeEvent} (h : lastRecord changes p = some r) :
    r ∈ changes ∧ r.file_path = p := by
  suffices hgen : ∀ (l : List FileChangeEvent) (acc : Option FileChangeEvent),
      (∀ x, acc = some x → x ∈ l ∨ (x ∈ changes ∧ x.file_path = p)) →
      (∀ x, acc = some x → x.file_path = p) →
      (∀ x ∈ l, x ∈ changes) →
      ∀ x, l.foldl (fun o y => if y.file_path = p then some y else o) acc = some x →
        x ∈ changes ∧ x.file_path = p by
    exact hgen changes none (by intro x hx; cases hx) (by intro x hx; cases hx)
      (fun x hx => hx) r h
  intro l
  induction l with
  | nil =>
    intro acc hmem hpath _ x hx
    rcases hmem x hx with h₂ | h₂
    · cases h₂
    · exact h₂
  | cons y ys ih =>
    intro acc hmem hpath hsub x hx
    simp only [List.foldl_cons] at hx
    by_cases hy : y.file_path = p
    · refine ih (some y) ?_ ?_ (fun z hz => hsub z (List.mem_cons_of_mem y hz)) x ?_
      · intro z hz
        cases hz
        exact Or.inr ⟨hsub y (List.mem_cons_self y ys), hy⟩
      · intro z hz; cases hz; exact hy
      · simpa [hy] using hx
    · refine ih acc ?_ hpath (fun z hz => hsub z (List.mem_cons_of_mem y hz)) x ?_
      · intro z hz
        rcases hmem z hz with h₂ | h₂
        · rcases List.mem_cons.mp h₂ with h₃ | h₃
          · subst h₃
            exact Or.inr ⟨hsub z (List.mem_cons_self z ys), hpath z hz⟩
          · exact Or.inl h₃
        · exact Or.inr h₂
      · simpa [hy] using hx

theorem processChangeBatchPure_perm (changes : List FileChangeEvent) :
    List.Perm (processChangeBatchPure changes) (dedupByPath changes) :=
  List.perm_insertionSort tsLE (dedupByPath changes)

theorem processChangeBatchPure_sorted (changes : List FileChangeEvent) :
    List.Pairwise tsLE (processChangeBatchPure changes) :=
  List.sorted_insertionSort tsLE (dedupByPath changes)

theorem paths_nodup_batch (changes : List FileChangeEvent) :
    ((processChangeBatchPure changes).map FileChangeEvent.file_path).Nodup :=
  (((processChangeBatchPure_perm changes).map FileChangeEvent.file_path).nodup_iff).mpr
    (paths_nodup_dedupByPath changes)

theorem mem_paths_batch (changes : List FileChangeEvent) (p : String) :
    p ∈ (processChangeBatchPure changes).map FileChangeEvent.file_path
      ↔ p ∈ changes.map FileChangeEvent.file_path := by
  rw [((processChangeBatchPure_perm changes).map FileChangeEvent.file_path).mem_iff]
  exact mem_paths_dedupByPath changes p

theorem batch_elem_lastRecord {changes : List FileChangeEvent}
    {r : FileChangeEvent} (h : r ∈ processChangeBatchPure changes) :
    lastRecord changes r.file_path = some r := by
  have hmem : r ∈ dedupByPath changes := (processChangeBatchPure_perm changes).mem_iff.mp h
  rw [← lookupPath_dedupByPath]
  exact lookupPath_eq_some_of_mem hmem (paths_nodup_dedupByPath changes)

theorem runCallbacks_map (batch : List FileChangeEvent) (cbs : List Subscriber) :
    runCallbacks batch cbs = cbs.map (fun f => f batch) := by
  induction cbs with
  | nil => rfl
  | cons cb rest ih => simp [runCallbacks, ih]

theorem runCallbacks_append (batch : List FileChangeEvent)
    (l₁ l₂ : List Subscriber) :
    runCallbacks batch (l₁ ++ l₂) = runCallbacks batch l₁ ++ runCallbacks batch l₂ := by
  simp [runCallbacks_map]

/-- The hash `FileChangeEvent._get_file_hash` reads from snapshot `fs`. -/
def fsHash (fs : FSModel) (p : String) : String :=
  match fs p with
  | some x => x.2
  | none => ""

theorem mkFileChangeEvent_hash (fs : FSModel) (p : String) (ty : EventType)
    (now : Nat) : (mkFileChangeEvent fs p ty now).file_hash = fsHash fs p := rfl

/-- A `Modified` notification for a path already pending with the same
content hash leaves the handler state unchanged (it is dropped before it
can replace the record or reset its timestamp). -/
theorem on_modified_suppressed (cfg : Config) (fs : FSModel) (st : HandlerState)
    (ev : FileSystemEvent) (now : Nat) {prev : FileChangeEvent}
    (hlook : dictLookup st.recent_events (normpath ev.src_path) = some prev)
    (hhash : fsHash fs (normpath ev.src_path) = prev.file_hash) :
    on_modified cfg fs st ev now = st := by
  by_cases hd : ev.is_directory = true
  · simp [on_modified, hd]
  · by_cases hi : should_ignore_file cfg ev.src_path = true
    · simp [on_modified, hd, hi]
    · simp [on_modified, hd, hi, hlook, mkFileChangeEvent_hash, hhash]

/-- Folding further same-hash `Modified` notifications over a state where
the path is already pending with that hash is the identity. -/
theorem foldl_on_modified_suppressed (cfg : Config) (ev : FileSystemEvent)
    {prev : FileChangeEvent} :
    ∀ (rest : List (Nat × FSModel)) (st : HandlerState),
      dictLookup st.recent_events (normpath ev.src_path) = some prev →
      (∀ nf ∈ rest, fsHash nf.2 (normpath ev.src_path) = prev.file_hash) →
      rest.foldl (fun s nf => on_modified cfg nf.2 s ev nf.1) st = st := by
  intro rest
  induction rest with
  | nil => intro st _ _; rfl
  | cons nf tail ih =>
    intro st hlook hh
    have h₁ : on_modified cfg nf.2 st ev nf.1 = st :=
      on_modified_suppressed cfg nf.2 st ev nf.1 hlook
        (hh nf (List.mem_cons_self nf tail))
    simp only [List.foldl_cons, h₁]
    exact ih st hlook (fun x hx => hh x (List.mem_cons_of_mem nf hx))

/-- Concrete fixtures used by counterexamples and witnesses. -/
def cfgNone : Config := ⟨[], [], []⟩

def cfgGit : Config := ⟨[".git"], [], []⟩

def fsA : FSModel := fun p => if p = "a.txt" then some (3, "h1") else none

def evA : FileSystemEvent := ⟨"a.txt", false, none⟩

def recA : FileChangeEvent := ⟨"a.txt", EventType.modified, 0, 3, "h1"⟩

/-- **C1** (corrected). For a burst of `Modified` notifications for one
non-ignored path, all carrying the same content hash, starting with the
path not pending: the first notification installs a pending record and
every later one is suppressed, so exactly ONE record (not zero) settles
once the window elapses, and it is the first notification's record. -/
theorem modified_burst_settles_one (cfg : Config) (ev : FileSystemEvent)
    (h : String) (nf₀ : Nat × FSModel) (rest : List (Nat × FSModel))
    (hdir : ev.is_directory = false)
    (hign : should_ignore_file cfg ev.src_path = false)
    (hh : ∀ nf ∈ nf₀ :: rest, fsHash nf.2 (normpath ev.src_path) = h) :
    (((nf₀ :: rest).foldl (fun s nf => on_modified cfg nf.2 s ev nf.1)
        (⟨[]⟩ : HandlerState)).recent_events
      = [(normpath ev.src_path,
          mkFileChangeEvent nf₀.2 (normpath ev.src_path) .modified nf₀.1)])
    ∧ ∀ T, debounce_interval < T - nf₀.1 →
        (cleanupExpired debounce_interval T
          ((nf₀ :: rest).foldl (fun s nf => on_modified cfg nf.2 s ev nf.1)
            (⟨[]⟩ : HandlerState))).2
          = [mkFileChangeEvent nf₀.2 (normpath ev.src_path) .modified nf₀.1] := by
  set np := normpath ev.src_path with hnp
  set first := mkFileChangeEvent nf₀.2 np .modified nf₀.1 with hfirst
  have hstep1 : on_modified cfg nf₀.2 (⟨[]⟩ : HandlerState) ev nf₀.1
      = ⟨[(np, first)]⟩ := by
    simp [on_modified, hdir, hign, dictLookup, dictInsert, hnp, hfirst]
  have hfold : (nf₀ :: rest).foldl (fun s nf => on_modified cfg nf.2 s ev nf.1)
      (⟨[]⟩ : HandlerState) = ⟨[(np, first)]⟩ := by
    simp only [List.foldl_cons, hstep1]
    refine @foldl_on_modified_suppressed cfg ev first rest ⟨[(np, first)]⟩ ?_ ?_
    · simp [dictLookup]
    · intro nf hnf
      have h₁ := hh nf (List.mem_cons_of_mem nf₀ hnf)
      have h₂ := hh nf₀ (List.mem_cons_self nf₀ rest)
      rw [hfirst, mkFileChangeEvent_hash, h₁, h₂]
  refine ⟨by rw [hfold], ?_⟩
  intro T hT
  rw [hfold]
  have hts : first.timestamp = nf₀.1 := rfl
  simp [cleanupExpired, hts, hT]

/-- **C1** counterexample: two identical-content `Modified` notifications
for `a.txt` at times 0 and 1 (within one 2-unit settle window), starting
from an empty pending state; after settlement one `modified` record — not
zero — has been emitted downstream. -/
theorem C1_counterexample :
    ((cleanupExpired debounce_interval 4
      ([((0 : Nat), fsA), (1, fsA)].foldl
        (fun s nf => on_modified cfgNone nf.2 s evA nf.1)
        (⟨[]⟩ : HandlerState))).2).length = 1
    ∧ ((cleanupExpired debounce_interval 4
      ([((0 : Nat), fsA), (1, fsA)].foldl
        (fun s nf => on_modified cfgNone nf.2 s evA nf.1)
        (⟨[]⟩ : HandlerState))).2).length ≠ 0 := by
  constructor
  · decide
  · decide

/-- **C1** witness: the amended theorem applied to the concrete burst. -/
theorem C1_witness :
    (([((0 : Nat), fsA), (1, fsA)].foldl
        (fun s nf => on_modified cfgNone nf.2 s evA nf.1)
        (⟨[]⟩ : HandlerState)).recent_events
      = [(normpath "a.txt", mkFileChangeEvent fsA (normpath "a.txt") .modified 0)]) :=
  (modified_burst_settles_one cfgNone evA "h1" (0, fsA) [(1, fsA)]
    rfl (by decide) (by decide)).1

/-- A monitor state with one record still pending in the debouncer. -/
def stC2 : MonitorState := ⟨[("a.txt", recA)], [], 0, ⟨1, 0, 0⟩, []⟩

/-- A monitor state with one record in the batcher accumulation. -/
def stC2b : MonitorState := ⟨[], [recA], 0, ⟨1, 0, 0⟩, []⟩

/-- **C2** (corrected). `stop_monitoring` flushes exactly the Batcher
accumulation: when non-empty, one final batch (the dedup-sorted
accumulation, with every accumulated path represented) is delivered before
return; but the Debouncer's `recent_events` is left untouched — stop never
drains it. -/
theorem stop_flushes_batcher_only (now : Nat) (st : MonitorState) :
    (st.pending_changes ≠ [] →
      (stop_monitoring now st).delivered
        = st.delivered ++ [processChangeBatchPure st.pending_changes]
      ∧ (stop_monitoring now st).pending_changes = []
      ∧ ∀ r ∈ st.pending_changes,
          ∃ q ∈ processChangeBatchPure st.pending_changes,
            q.file_path = r.file_path)
    ∧ (stop_monitoring now st).recent_events = st.recent_events := by
  by_cases hp : st.pending_changes = []
  · refine ⟨fun hne => absurd hp hne, ?_⟩
    simp [stop_monitoring, hp, trigger_batch_processing]
  · have hne : st.pending_changes.isEmpty = false := by
      cases hl : st.pending_changes with
      | nil => exact absurd hl hp
      | cons a l => rfl
    refine ⟨fun _ => ⟨?_, ?_, ?_⟩, ?_⟩
    · simp [stop_monitoring, hne, trigger_batch_processing]
    · simp [stop_monitoring, hne, trigger_batch_processing]
    · intro r hr
      have hmem : r.file_path
          ∈ (processChangeBatchPure st.pending_changes).map FileChangeEvent.file_path :=
        (mem_paths_batch st.pending_changes r.file_path).mpr
          (List.mem_map_of_mem FileChangeEvent.file_path hr)
      rcases List.mem_map.mp hmem with ⟨q, hq, hqp⟩
      exact ⟨q, hq, hqp⟩
    · simp [stop_monitoring, hne, trigger_batch_processing]

/-- **C2** counterexample: a record observed and pending in the Debouncer's
`recent_events` at the moment of `stop_monitoring`; stop returns with no
batch delivered and the record still undrained — it is lost on shutdown. -/
theorem C2_counterexample :
    stop_monitoring 5 stC2 = stC2
    ∧ stC2.recent_events ≠ []
    ∧ (stop_monitoring 5 stC2).delivered = [] := by
  refine ⟨rfl, ?_, rfl⟩
  decide

/-- **C2** witness: the amended theorem applied to a state with a non-empty
batcher accumulation. -/
theorem C2_witness :
    ((stop_monitoring 7 stC2b).delivered
      = stC2b.delivered ++ [processChangeBatchPure stC2b.pending_changes])
    ∧ (stop_monitoring 7 stC2b).recent_events = stC2b.recent_events :=
  ⟨((stop_flushes_batcher_only 7 stC2b).1 (by decide)).1,
   (stop_flushes_batcher_only 7 stC2b).2⟩

/-- **C3** (confirmed). `Created`, `Deleted` and `Moved` notifications
always replace the pending record for their path regardless of
fingerprint, and a `Created` → `Deleted` transition within one settle
window settles as a single record of kind `Deleted`. -/
theorem last_kind_wins :
    (∀ (cfg : Config) (fs : FSModel) (st : HandlerState) (ev : FileSystemEvent)
      (now : Nat), ev.is_directory = false →
      should_ignore_file cfg ev.src_path = false →
      dictLookup (on_created cfg fs st ev now).recent_events (normpath ev.src_path)
        = some (mkFileChangeEvent fs (normpath ev.src_path) .created now))
    ∧ (∀ (cfg : Config) (fs : FSModel) (st : HandlerState) (ev : FileSystemEvent)
      (now : Nat), ev.is_directory = false →
      should_ignore_file cfg ev.src_path = false →
      dictLookup (on_deleted cfg fs st ev now).recent_events (normpath ev.src_path)
        = some (mkFileChangeEvent fs (normpath ev.src_path) .deleted now))
    ∧ (∀ (cfg : Config) (fs : FSModel) (st : HandlerState) (ev : FileSystemEvent)
      (now : Nat) (dp : String), ev.is_directory = false →
      ev.dest_path = some dp → should_ignore_file cfg dp = false →
      dictLookup (on_moved cfg fs st ev now).recent_events (normpath dp)
        = some (mkFileChangeEvent fs (normpath dp) .moved now))
    ∧ (∀ (cfg : Config) (fs₁ fs₂ : FSModel) (ev : FileSystemEvent)
      (t₁ t₂ T : Nat), ev.is_directory = false →
      should_ignore_file cfg ev.src_path = false →
      debounce_interval < T - t₂ →
      (cleanupExpired debounce_interval T
          (on_deleted cfg fs₂ (on_created cfg fs₁ (⟨[]⟩ : HandlerState) ev t₁) ev t₂)).2
        = [mkFileChangeEvent fs₂ (normpath ev.src_path) .deleted t₂]) := by
  refine ⟨?_, ?_, ?_, ?_⟩
  · intro cfg fs st ev now hdir hign
    simp [on_created, hdir, hign, dictLookup_dictInsert]
  · intro cfg fs st ev now hdir hign
    simp [on_deleted, hdir, hign, dictLookup_dictInsert]
  · intro cfg fs st ev now dp hdir hdp hign
    simp [on_moved, hdir, hdp, hign, dictLookup_dictInsert]
  · intro cfg fs₁ fs₂ ev t₁ t₂ T hdir hign hT
    have hc : on_created cfg fs₁ (⟨[]⟩ : HandlerState) ev t₁
        = ⟨[(normpath ev.src_path,
            mkFileChangeEvent fs₁ (normpath ev.src_path) .created t₁)]⟩ := by
      simp [on_created, hdir, hign, dictInsert]
    have hd : on_deleted cfg fs₂
        (⟨[(normpath ev.src_path,
            mkFileChangeEvent fs₁ (normpath ev.src_path) .created t₁)]⟩ : HandlerState)
        ev t₂
        = ⟨[(normpath ev.src_path,
            mkFileChangeEvent fs₂ (normpath ev.src_path) .deleted t₂)]⟩ := by
      simp [on_deleted, hdir, hign, dictInsert]
    rw [hc, hd]
    have hts : (mkFileChangeEvent fs₂ (normpath ev.src_path) .deleted t₂).timestamp
        = t₂ := rfl
    simp [cleanupExpired, hts, hT]

/-- **C3** witness: the theorem's parts applied to a concrete
`Created` → `Deleted` sequence on `a.txt`. -/
theorem C3_witness :
    dictLookup (on_created cfgNone fsA (⟨[]⟩ : HandlerState) evA 5).recent_events
        (normpath "a.txt")
      = some (mkFileChangeEvent fsA (normpath "a.txt") .created 5)
    ∧ (cleanupExpired debounce_interval 9
        (on_deleted cfgNone fsA
          (on_created cfgNone fsA (⟨[]⟩ : HandlerState) evA 5) evA 6)).2
      = [mkFileChangeEvent fsA (normpath "a.txt") .deleted 6] :=
  ⟨last_kind_wins.1 cfgNone fsA ⟨[]⟩ evA 5 rfl (by decide),
   last_kind_wins.2.2.2 cfgNone fsA fsA evA 5 6 9 rfl (by decide) (by decide)⟩

/-- A concrete accumulation with a duplicated path, for witnesses. -/
def cChanges : List FileChangeEvent :=
  [⟨"a.txt", EventType.created, 5, 1, "x"⟩,
   ⟨"b.txt", EventType.modified, 3, 2, "y"⟩,
   ⟨"a.txt", EventType.modified, 9, 4, "z"⟩]

/-- **C4** (confirmed). Every flushed batch contains each accumulated path
exactly once (no duplicate paths, and exactly the accumulated paths), each
path carries the last record accumulated for it, and the batch is sorted
non-decreasing by timestamp. -/
theorem batch_dedup_sorted (changes : List FileChangeEvent)
    (hne : changes ≠ []) :
    ((processChangeBatchPure changes).map FileChangeEvent.file_path).Nodup
    ∧ (∀ p, p ∈ changes.map FileChangeEvent.file_path
        ↔ p ∈ (processChangeBatchPure changes).map FileChangeEvent.file_path)
    ∧ (∀ r ∈ processChangeBatchPure changes, lastRecord changes r.file_path = some r)
    ∧ List.Pairwise tsLE (processChangeBatchPure changes) := by
  refine ⟨paths_nodup_batch changes, ?_, ?_, processChangeBatchPure_sorted changes⟩
  · intro p
    exact (mem_paths_batch changes p).symm
  · intro r hr
    exact batch_elem_lastRecord hr

/-- **C4** witness: the theorem applied to a concrete accumulation where
`a.txt` settled twice. -/
theorem C4_witness :
    cChanges ≠ []
    ∧ ((processChangeBatchPure cChanges).map FileChangeEvent.file_path).Nodup
    ∧ List.Pairwise tsLE (processChangeBatchPure cChanges) :=
  ⟨by decide, (batch_dedup_sorted cChanges (by decide)).1,
   (batch_dedup_sorted cChanges (by decide)).2.2.2⟩

/-- **C5** (confirmed). A flush attempt with an empty accumulation is a
no-op: `_trigger_batch_processing` returns without delivering,
`_process_change_batch` on an empty batch invokes no callback, and the
manual triggers (`stop_monitoring`'s flush, `force_process_changes`) leave
the state untouched. -/
theorem empty_flush_noop :
    (∀ (now : Nat) (st : MonitorState), st.pending_changes = [] →
      trigger_batch_processing now st = st)
    ∧ (∀ cbs : List Subscriber, process_change_batch cbs [] = [])
    ∧ (∀ (now : Nat) (st : MonitorState), st.pending_changes = [] →
      stop_monitoring now st = st ∧ force_process_changes now st = st) := by
  refine ⟨?_, ?_, ?_⟩
  · intro now st hp
    simp [trigger_batch_processing, hp]
  · intro cbs
    rfl
  · intro now st hp
    constructor
    · simp [stop_monitoring, hp]
    · simp [force_process_changes, hp]

/-- **C5** witness: the theorem applied to an empty initial state. -/
theorem C5_witness :
    (initialMonitorState 3).pending_changes = []
    ∧ trigger_batch_processing 9 (initialMonitorState 3) = initialMonitorState 3 :=
  ⟨rfl, empty_flush_noop.1 9 (initialMonitorState 3) rfl⟩

/-- An always-succeeding subscriber. -/
def cbOk : Subscriber := fun _ => Except.ok ()

/-- A subscriber that always raises. -/
def cbBoom : Subscriber := fun _ => Except.error "boom"

/-- **C7** (confirmed). The delivery loop invokes every registered callback
exactly once, in registration order, on the same batch; a callback that
raises yields an error result that is caught, and all remaining callbacks
are still invoked. -/
theorem subscriber_errors_isolated :
    (∀ (batch : List FileChangeEvent) (cbs : List Subscriber),
      runCallbacks batch cbs = cbs.map (fun f => f batch))
    ∧ (∀ (changes : List FileChangeEvent) (cbs₁ cbs₂ : List Subscriber)
        (cb : Subscriber) (e : String), changes ≠ [] →
        cb (processChangeBatchPure changes) = Except.error e →
        process_change_batch (cbs₁ ++ cb :: cbs₂) changes
          = runCallbacks (processChangeBatchPure changes) cbs₁
            ++ Except.error e :: runCallbacks (processChangeBatchPure changes) cbs₂) := by
  refine ⟨runCallbacks_map, ?_⟩
  intro changes cbs₁ cbs₂ cb e hne hcb
  have hemp : changes.isEmpty = false := by
    cases hl : changes with
    | nil => exact absurd hl hne
    | cons a l => rfl
  simp only [process_change_batch, hemp, Bool.false_eq_true, if_false,
    runCallbacks_append, runCallbacks, hcb]

/-- **C7** witness: a failing middle subscriber does not abort delivery to
the subscriber registered after it. -/
theorem C7_witness :
    process_change_batch ([cbOk] ++ cbBoom :: [cbOk]) [recA]
      = runCallbacks (processChangeBatchPure [recA]) [cbOk]
        ++ Except.error "boom" :: runCallbacks (processChangeBatchPure [recA]) [cbOk] :=
  subscriber_errors_isolated.2 [recA] [cbOk] [cbOk] cbBoom "boom" (by decide) rfl

/-- **C6** (corrected). Lifecycle misuse does crash: `start_monitoring`
calls `observer.start()` with no already-running guard, so a second start
raises `RuntimeError` from `threading.Thread.start`; `stop_monitoring`
calls `observer.join()` with no started guard, so stop-before-start raises
`RuntimeError` from `threading.Thread.join`. -/
theorem lifecycle_misuse_raises :
    (∀ o : ObserverState, o.started = true →
      start_monitoring o = Except.error "threads can only be started once")
    ∧ (∀ o : ObserverState, o.started = false →
      stop_monitoring_lifecycle o
        = Except.error "cannot join thread before it is started") := by
  constructor
  · intro o ho
    simp [start_monitoring, observer_start, ho]
  · intro o ho
    simp [stop_monitoring_lifecycle, observer_join, ho]

/-- **C6** counterexample: from a fresh monitor, the first
`start_monitoring` succeeds and the second raises instead of being a
no-op; `stop_monitoring` before any start also raises. -/
theorem C6_counterexample :
    start_monitoring initialObserver = Except.ok ⟨true, false⟩
    ∧ start_monitoring ⟨true, false⟩
        = Except.error "threads can only be started once"
    ∧ stop_monitoring_lifecycle initialObserver
        = Except.error "cannot join thread before it is started" :=
  ⟨rfl, rfl, rfl⟩

/-- **C6** witness: the amended theorem applied to a started observer and
to a fresh observer. -/
theorem C6_witness :
    start_monitoring ⟨true, true⟩ = Except.error "threads can only be started once"
    ∧ stop_monitoring_lifecycle ⟨false, false⟩
        = Except.error "cannot join thread before it is started" :=
  ⟨lifecycle_misuse_raises.1 ⟨true, true⟩ rfl,
   lifecycle_misuse_raises.2 ⟨false, false⟩ rfl⟩

theorem trigger_batch_stats (now : Nat) (st : MonitorState) :
    (trigger_batch_processing now st).stats.ignored_events
        = st.stats.ignored_events
    ∧ (trigger_batch_processing now st).stats.total_events
        = st.stats.total_events
    ∧ st.stats.processed_batches
        ≤ (trigger_batch_processing now st).stats.processed_batches := by
  by_cases hp : st.pending_changes.isEmpty = true
  · simp [trigger_batch_processing, hp]
  · simp only [Bool.not_eq_true] at hp
    simp [trigger_batch_processing, hp]

theorem process_file_change_stats (bi now : Nat) (st : MonitorState)
    (e : FileChangeEvent) :
    (process_file_change bi now st e).stats.ignored_events
        = st.stats.ignored_events
    ∧ (process_file_change bi now st e).stats.total_events
        = st.stats.total_events + 1
    ∧ st.stats.processed_batches
        ≤ (process_file_change bi now st e).stats.processed_batches := by
  unfold process_file_change
  dsimp only
  split
  · have h₁ := trigger_batch_stats now
      { st with
        pending_changes := st.pending_changes ++ [e]
        stats := { st.stats with total_events := st.stats.total_events + 1 } }
    exact ⟨h₁.1, h₁.2.1, h₁.2.2⟩
  · exact ⟨rfl, rfl, Nat.le_refl _⟩

theorem foldl_process_file_change_stats (bi now : Nat) :
    ∀ (l : List FileChangeEvent) (st : MonitorState),
      (l.foldl (process_file_change bi now) st).stats.ignored_events
          = st.stats.ignored_events
      ∧ st.stats.total_events
          ≤ (l.foldl (process_file_change bi now) st).stats.total_events
      ∧ st.stats.processed_batches
          ≤ (l.foldl (process_file_change bi now) st).stats.processed_batches := by
  intro l
  induction l with
  | nil => intro st; exact ⟨rfl, Nat.le_refl _, Nat.le_refl _⟩
  | cons e rest ih =>
    intro st
    have h₁ := process_file_change_stats bi now st e
    have h₂ := ih (process_file_change bi now st e)
    simp only [List.foldl_cons]
    refine ⟨h₂.1.trans h₁.1, Nat.le_trans ?_ h₂.2.1, Nat.le_trans h₁.2.2 h₂.2.2⟩
    rw [h₁.2.1]
    exact Nat.le_succ _

/-- **C8** (corrected). The stats counters behave as the code, not the
claim, says: raw notifications never touch the counters (the handler only
updates `recent_events`), `total_events` is incremented once per *settled*
record inside `_process_file_change`, `ignored_events` starts at 0 and is
never incremented by any operation, and all three counters are
monotonically non-decreasing across every operation. -/
theorem stats_counters_behavior :
    (∀ t₀, (initialMonitorState t₀).stats = ⟨0, 0, 0⟩)
    ∧ (∀ (cfg : Config) (fs : FSModel) (kind : RawKind) (ev : FileSystemEvent)
        (now : Nat) (st : MonitorState),
        (dispatchRaw cfg fs kind ev now st).stats = st.stats)
    ∧ (∀ (bi now : Nat) (st : MonitorState) (e : FileChangeEvent),
        (process_file_change bi now st e).stats.total_events
          = st.stats.total_events + 1
        ∧ (process_file_change bi now st e).stats.ignored_events
          = st.stats.ignored_events)
    ∧ (∀ (bi now : Nat) (st : MonitorState),
        (monitorCleanupStep bi now st).stats.ignored_events
          = st.stats.ignored_events
        ∧ st.stats.total_events ≤ (monitorCleanupStep bi now st).stats.total_events
        ∧ st.stats.processed_batches
          ≤ (monitorCleanupStep bi now st).stats.processed_batches)
    ∧ (∀ (now : Nat) (st : MonitorState),
        (trigger_batch_processing now st).stats.ignored_events
          = st.stats.ignored_events
        ∧ (trigger_batch_processing now st).stats.total_events
          = st.stats.total_events
        ∧ st.stats.processed_batches
          ≤ (trigger_batch_processing now st).stats.processed_batches)
    ∧ (∀ (now : Nat) (st : MonitorState),
        (stop_monitoring now st).stats.ignored_events = st.stats.ignored_events
        ∧ (stop_monitoring now st).stats.total_events = st.stats.total_events
        ∧ st.stats.processed_batches
          ≤ (stop_monitoring now st).stats.processed_batches) := by
  refine ⟨fun _ => rfl, ?_, ?_, ?_, trigger_batch_stats, ?_⟩
  · intro cfg fs kind ev now st
    cases kind <;> rfl
  · intro bi now st e
    have h := process_file_change_stats bi now st e
    exact ⟨h.2.1, h.1⟩
  · intro bi now st
    have h := foldl_process_file_change_stats bi now
      (cleanupExpired debounce_interval now ⟨st.recent_events⟩).2
      { st with
        recent_events :=
          (cleanupExpired debounce_interval now ⟨st.recent_events⟩).1.recent_events }
    exact ⟨h.1, h.2.1, h.2.2⟩
  · intro now st
    by_cases hp : st.pending_changes.isEmpty = true
    · simp [stop_monitoring, hp]
    · simp only [Bool.not_eq_true] at hp
      have h := trigger_batch_stats now st
      simp only [stop_monitoring, hp, Bool.not_false, if_pos]
      exact h

/-- **C8** counterexample: a raw `Modified` notification for a
classifier-ignored path (`.git/a.py` with `.git` excluded) leaves
`total_events` and `ignored_events` both at 0, though the claim requires
both to be incremented; a raw notification for a non-ignored path also
leaves `total_events` at 0 (it is only counted later, at settle time). -/
theorem C8_counterexample :
    (dispatchRaw cfgGit fsA .modified ⟨".git/a.py", false, none⟩ 0
        (initialMonitorState 0)).stats.total_events = 0
    ∧ (dispatchRaw cfgGit fsA .modified ⟨".git/a.py", false, none⟩ 0
        (initialMonitorState 0)).stats.ignored_events = 0
    ∧ (dispatchRaw cfgNone fsA .modified evA 0
        (initialMonitorState 0)).stats.total_events = 0 :=
  ⟨rfl, rfl, rfl⟩

/-- The `/`-separated segments of a normalized path (what a path-segment
test would look at, in contrast to the code's substring test). -/
def pathSegments (p : String) : List String :=
  (splitSlash (normpath p).data).map (fun l => String.mk l)

/-- **C9** (confirmed). The excluded-directory check is plain substring
containment on the normalized path: any configured excluded directory name
occurring anywhere in the normalized path string forces
`should_ignore_file` to `true`; in particular the file `a.github.py` is
ignored under an excluded `.git` even though no path segment equals
`.git`. -/
theorem excluded_dir_substring :
    (∀ (cfg : Config) (path d : String), d ∈ cfg.exclude_directories →
      strContains (normpath path).data d.data = true →
      should_ignore_file cfg path = true)
    ∧ should_ignore_file cfgGit "a.github.py" = true
    ∧ ".git" ∉ pathSegments "a.github.py" := by
  refine ⟨?_, by decide, by decide⟩
  intro cfg path d hd hc
  have hany : cfg.exclude_directories.any
      (fun x => strContains (normpath path).data x.data) = true :=
    List.any_eq_true.mpr ⟨d, hd, hc⟩
  simp [should_ignore_file, hany]

/-- **C9** witness: the containment part applied to `.git` and
`a.github.py`. -/
theorem C9_witness : should_ignore_file cfgGit "a.github.py" = true :=
  excluded_dir_substring.1 cfgGit "a.github.py" ".git" (by decide) (by decide)

/-- **C10** (confirmed). A `Moved` notification records at most one pending
entry, keyed by the normalized destination with kind `moved`; every other
key — the source path in particular — is untouched; a `Moved` without a
destination path, or with an ignored destination, is dropped entirely. -/
theorem moved_keyed_by_dest :
    (∀ (cfg : Config) (fs : FSModel) (st : HandlerState) (ev : FileSystemEvent)
      (now : Nat), ev.dest_path = none → on_moved cfg fs st ev now = st)
    ∧ (∀ (cfg : Config) (fs : FSModel) (st : HandlerState) (ev : FileSystemEvent)
      (now : Nat) (dp : String), ev.is_directory = false →
      ev.dest_path = some dp → should_ignore_file cfg dp = false →
      dictLookup (on_moved cfg fs st ev now).recent_events (normpath dp)
        = some (mkFileChangeEvent fs (normpath dp) .moved now)
      ∧ ∀ q, q ≠ normpath dp →
          dictLookup (on_moved cfg fs st ev now).recent_events q
            = dictLookup st.recent_events q)
    ∧ (∀ (cfg : Config) (fs : FSModel) (st : HandlerState) (ev : FileSystemEvent)
      (now : Nat) (dp : String), ev.dest_path = some dp →
      should_ignore_file cfg dp = true → on_moved cfg fs st ev now = st) := by
  refine ⟨?_, ?_, ?_⟩
  · intro cfg fs st ev now hdp
    by_cases hd : ev.is_directory = true
    · simp [on_moved, hd]
    · simp [on_moved, hd, hdp]
  · intro cfg fs st ev now dp hdir hdp hign
    constructor
    · simp [on_moved, hdir, hdp, hign, dictLookup_dictInsert]
    · intro q hq
      have hne : ¬ normpath dp = q := fun h => hq h.symm
      simp [on_moved, hdir, hdp, hign, dictLookup_dictInsert, hne]
  · intro cfg fs st ev now dp hdp hign
    by_cases hd : ev.is_directory = true
    · simp [on_moved, hd]
    · simp [on_moved, hd, hdp, hign]

/-- **C10** witness: a concrete move of `old.txt` to `new.txt` records the
destination with kind `moved` and leaves the source key absent. -/
theorem C10_witness :
    dictLookup (on_moved cfgNone fsA (⟨[]⟩ : HandlerState)
        ⟨"old.txt", false, some "new.txt"⟩ 2).recent_events (normpath "new.txt")
      = some (mkFileChangeEvent fsA (normpath "new.txt") .moved 2)
    ∧ dictLookup (on_moved cfgNone fsA (⟨[]⟩ : HandlerState)
        ⟨"old.txt", false, some "new.txt"⟩ 2).recent_events (normpath "old.txt")
      = dictLookup (⟨[]⟩ : HandlerState).recent_events (normpath "old.txt") :=
  ⟨(moved_keyed_by_dest.2.1 cfgNone fsA ⟨[]⟩ ⟨"old.txt", false, some "new.txt"⟩ 2
      "new.txt" rfl rfl (by decide)).1,
   (moved_keyed_by_dest.2.1 cfgNone fsA ⟨[]⟩ ⟨"old.txt", false, some "new.txt"⟩ 2
      "new.txt" rfl rfl (by decide)).2 (normpath "old.txt") (by decide)⟩

example : normpath "a//b/./c/../d.txt" = "a/b/d.txt" := by decide
example : normpath "" = "." := by decide
example : basename "a/b/c.py" = "c.py" := by decide
example : pathSuffix "a/b.tar.gz" = ".gz" := by decide
example : pathSuffix ".gitignore" = "" := by decide
example : fnmatch "x.log" "*.log" = true := by decide
example : fnmatch "x.log" "*.tmp" = false := by decide
example : fnmatch "ab" "a[b-d]" = true := by decide
example : fnmatch "ae" "a[b-d]" = false := by decide
example : fnmatch "ae" "a[!b-d]" = true := by decide

end FileMonitorModel
